import Mathlib

set_option autoImplicit false

/-!
Verification of the KIR-ligand cache of `fs-tool` against its specification.

The embedding follows `immunoprot/src/ig_like/kir_ligand.rs` (nomenclature
classifier, table extractor, ligand record, lookup cache) and
`src/data/retrieve_ligands.rs` (the `LigandInfo` conversion).  Rust strings
are modelled as lists of characters, HTML documents as the sequence of their
`tr` nodes (each reduced to its ordered text fragments, the view the external
`scraper` collaborator provides), network fetches as an explicit function
parameter, and the external `ClassI` allele parser as an opaque function
parameter.  Rust panics are modelled as `none`.
-/

namespace FsTool

/-- Rust string slices are modelled as lists of characters. -/
abbrev Str := List Char

/-- The Unicode White_Space property, as used by Rust's `char::is_whitespace`. -/
def rustIsWhitespace (c : Char) : Bool :=
  let n := c.toNat
  n == 0x9 || n == 0xA || n == 0xB || n == 0xC || n == 0xD || n == 0x20 ||
    n == 0x85 || n == 0xA0 || n == 0x1680 ||
    (decide (0x2000 ≤ n) && decide (n ≤ 0x200A)) ||
    n == 0x2028 || n == 0x2029 || n == 0x202F || n == 0x205F || n == 0x3000

/-- Rust `str::trim`: strip leading and trailing whitespace. -/
def rustTrim (s : Str) : Str :=
  ((s.dropWhile rustIsWhitespace).reverse.dropWhile rustIsWhitespace).reverse

/-- Rust `str::contains(needle)`: substring containment. -/
def strContains (needle : Str) : Str → Bool
  | [] => needle.isEmpty
  | c :: rest => List.isPrefixOf needle (c :: rest) || strContains needle rest

/-- Left-biased choice on options, used to state lookup properties. -/
def optOr {α : Type} (x y : Option α) : Option α :=
  match x with
  | some v => some v
  | none => y

/-- `NomenclatureError` (the variant used by this module). -/
inductive NomenclatureError
  | UnknownLigandMotif (text : Str)
deriving DecidableEq

/-- `HtmlParseError` (the variants used by this module; the first two stand
for the transport-level failures of `get_ipd_html`). -/
inductive HtmlParseError
  | CouldNotConnect
  | CouldNotReadResponse
  | CouldNotReadClassI (text : Str)
  | IncorrectNumberOfColumns (columns : Nat) (text : Str)
deriving DecidableEq

/-- The closed `LigandMotif` enumeration (kir_ligand.rs lines 15-25). -/
inductive LigandMotif
  | A11
  | A3
  | Bw4_80T
  | Bw4_80I
  | Bw6
  | C1
  | C2
  | Unclassified
deriving DecidableEq

/-- The whitespace removal performed first by `LigandMotif::from_str`
(`s.chars().filter(|c| !c.is_whitespace())`). -/
def stripWhitespace (s : Str) : Str :=
  s.filter (fun c => !rustIsWhitespace c)

/-- The exact-match step of `LigandMotif::from_str` on whitespace-stripped
text (kir_ligand.rs lines 33-43). -/
def matchMotifToken (s : Str) : Except NomenclatureError LigandMotif :=
  if s = "A11".toList then .ok .A11
  else if s = "A3".toList then .ok .A3
  else if s = "A03".toList then .ok .A3
  else if s = "Bw4-80T".toList then .ok .Bw4_80T
  else if s = "Bw4-80I".toList then .ok .Bw4_80I
  else if s = "Bw6".toList then .ok .Bw6
  else if s = "C1".toList then .ok .C1
  else if s = "C01".toList then .ok .C1
  else if s = "C2".toList then .ok .C2
  else if s = "C02".toList then .ok .C2
  else if s = "Unclassified".toList then .ok .Unclassified
  else .error (.UnknownLigandMotif s)

/-- `impl FromStr for LigandMotif` (kir_ligand.rs lines 27-45). -/
def LigandMotif.from_str (s : Str) : Except NomenclatureError LigandMotif :=
  matchMotifToken (stripWhitespace s)

/-- `impl Display for LigandMotif` (kir_ligand.rs lines 47-62). -/
def LigandMotif.display : LigandMotif → Str
  | .A3 => "A3".toList
  | .A11 => "A11".toList
  | .Bw4_80I => "Bw4-80I".toList
  | .Bw4_80T => "Bw4-80T".toList
  | .Bw6 => "Bw6".toList
  | .C1 => "C1".toList
  | .C2 => "C2".toList
  | .Unclassified => "Unclassified".toList

/-- The closed `AlleleFreq` enumeration (kir_ligand.rs lines 64-69). -/
inductive AlleleFreq
  | Rare
  | Common
  | Unknown
deriving DecidableEq

/-- `impl<T: AsRef<str>> From<T> for AlleleFreq` (kir_ligand.rs lines 71-83):
trim, then a guard matching any text containing "Common", then the literal
"Rare", else Unknown. -/
def AlleleFreq.fromStr (s : Str) : AlleleFreq :=
  if strContains "Common".toList (rustTrim s) then .Common
  else if rustTrim s = "Rare".toList then .Rare
  else .Unknown

/-- HLA Class I allele identifiers (`crate::mhc::hla::ClassI`) are opaque to
this module beyond equality and hashing; they are modelled by their text. -/
abbrev ClassI := Str

/-- `KirLigandInfo` (kir_ligand.rs lines 85-104): the {allele, motif, freq}
triple with its accessor names. -/
structure KirLigandInfo where
  allele : ClassI
  motif : LigandMotif
  freq : AlleleFreq
deriving DecidableEq

/-- One table row, as the ordered sequence of text fragments that scraper's
`ElementRef::text` yields for a `tr` node. -/
abbrev Row := List Str

/-- A parsed HTML document, abstracted (per the external `scraper` black box)
to the sequence of its `tr` nodes in document order. -/
abbrev Html := List Row

/-- `SKIP_ROWS` (kir_ligand.rs line 13). -/
def SKIP_ROWS : Nat := 1

/-- The row loop of `read_table` (kir_ligand.rs lines 180-200), after the
header skip: a row must have exactly 3 text fragments; the allele and motif
fragments are parsed (both failures mapped to `CouldNotReadClassI` carrying
the fragment), the frequency fragment is classified; any other fragment count
aborts with `IncorrectNumberOfColumns(count, concatenated row text)`. -/
def rowsLoop (parseClassI : Str → Option ClassI) :
    List Row → Except HtmlParseError (List KirLigandInfo)
  | [] => .ok []
  | row :: rest =>
    match row with
    | [a, m, f] =>
      match parseClassI a with
      | none => .error (.CouldNotReadClassI a)
      | some allele =>
        match LigandMotif.from_str m with
        | .error _ => .error (.CouldNotReadClassI m)
        | .ok motif =>
          match rowsLoop parseClassI rest with
          | .error e => .error e
          | .ok result => .ok (⟨allele, motif, AlleleFreq.fromStr f⟩ :: result)
    | _ => .error (.IncorrectNumberOfColumns row.length row.flatten)

/-- `read_table` (kir_ligand.rs lines 170-203): select the `tr` nodes in
document order, skip the first `skip_rows`, and run the row loop.  The external
`ClassI` parser is passed as a parameter. -/
def read_table (parseClassI : Str → Option ClassI) (html : Html)
    (skip_rows : Nat) : Except HtmlParseError (List KirLigandInfo) :=
  rowsLoop parseClassI (html.drop skip_rows)

/-- `KirLigandMap` (kir_ligand.rs lines 106-110): the set of alleles seen and
the allele-keyed cache.  `HashSet` is modelled as a duplicate-free list and
`HashMap` as an association list. -/
structure KirLigandMap where
  alleles : List ClassI
  cache : List (ClassI × KirLigandInfo)
deriving DecidableEq

/-- `HashSet::insert`: add the element if it is not already present. -/
def setInsert (a : ClassI) (s : List ClassI) : List ClassI :=
  if a ∈ s then s else a :: s

/-- `HashMap::insert`: replace any existing binding of the key. -/
def cacheInsert (k : ClassI) (v : KirLigandInfo)
    (c : List (ClassI × KirLigandInfo)) : List (ClassI × KirLigandInfo) :=
  (k, v) :: c.filter (fun p => decide (p.1 ≠ k))

/-- `HashMap::get`. -/
def cacheLookup (c : List (ClassI × KirLigandInfo)) (k : ClassI) :
    Option KirLigandInfo :=
  (c.find? (fun p => decide (p.1 = k))).map Prod.snd

/-- One iteration of the record loop in `KirLigandMap::new` (kir_ligand.rs
lines 124-127): insert the allele into the set and the record into the cache. -/
def mapInsert (m : KirLigandMap) (info : KirLigandInfo) : KirLigandMap :=
  ⟨setInsert info.allele m.alleles, cacheInsert info.allele info m.cache⟩

/-- The `for allele_info in allele_infos` loop over one locus's records. -/
def insertAll (m : KirLigandMap) (infos : List KirLigandInfo) : KirLigandMap :=
  infos.foldl mapInsert m

/-- The fail-fast `collect` over loci inside `KirLigandMap::new` (kir_ligand.rs
lines 118-131): loci are processed in order, each successful locus's records
are inserted into the accumulated map, and processing stops at the first fetch
or extraction error.  Returns the map state reached together with the value of
the collect expression. -/
def buildLoop (parseClassI : Str → Option ClassI)
    (fetch : Str → Except HtmlParseError Html) (st : KirLigandMap) :
    List Str → KirLigandMap × Except HtmlParseError Unit
  | [] => (st, .ok ())
  | locus :: rest =>
    match fetch locus with
    | .error e => (st, .error e)
    | .ok raw_html =>
      match read_table parseClassI raw_html SKIP_ROWS with
      | .error e => (st, .error e)
      | .ok allele_infos =>
          buildLoop parseClassI fetch (insertAll st allele_infos) rest

/-- `KirLigandMap::new` (kir_ligand.rs lines 114-134).  `get_ipd_html` is
network I/O and enters as the `fetch` parameter.  Faithful to the source: the
collect result is bound to `_` and discarded, and `Ok(Self { alleles, cache })`
is returned unconditionally. -/
def KirLigandMap.new (parseClassI : Str → Option ClassI)
    (fetch : Str → Except HtmlParseError Html) (loci : List Str) :
    Except HtmlParseError KirLigandMap :=
  .ok (buildLoop parseClassI fetch ⟨[], []⟩ loci).1

/-- `KirLigandMap::get_allele_info` (kir_ligand.rs lines 136-145). -/
def KirLigandMap.get_allele_info (m : KirLigandMap) (allele : ClassI) :
    List KirLigandInfo :=
  if allele ∈ m.alleles then
    match cacheLookup m.cache allele with
    | some allele_info => [allele_info]
    | none => []
  else []

/-- `LigandInfo` (retrieve_ligands.rs lines 23-24). -/
structure LigandInfo where
  hla : Str
  ligandGroup : Str
  frequency : Str
deriving DecidableEq

/-- `impl From<Vec<&str>> for LigandInfo` (retrieve_ligands.rs lines 26-36).
The frequency value is computed first, as in the source; an out-of-bounds
index (a Rust panic) is modelled as `none`. -/
def LigandInfo.from_vec (info : List Str) : Option LigandInfo :=
  match (if info.length = 2 then some "Unknown".toList else info.get? 2) with
  | none => none
  | some frequency =>
    match info.get? 0, info.get? 1 with
    | some h, some g => some ⟨h, g, frequency⟩
    | _, _ => none

/-- Specification helper: the record one well-shaped, fully parsing row
produces. -/
def rowToRecord (parseClassI : Str → Option ClassI) (row : Row) :
    Option KirLigandInfo :=
  match row with
  | [a, m, f] =>
    match parseClassI a, LigandMotif.from_str m with
    | some allele, .ok motif => some ⟨allele, motif, AlleleFreq.fromStr f⟩
    | _, _ => none
  | _ => none

/-- Specification helper: all rows of a list converted to records, in order,
failing if any row fails. -/
def rowsToRecords (parseClassI : Str → Option ClassI) :
    List Row → Option (List KirLigandInfo)
  | [] => some []
  | r :: rs =>
    match rowToRecord parseClassI r, rowsToRecords parseClassI rs with
    | some rec, some recs => some (rec :: recs)
    | _, _ => none

/-- Specification helper: the record of the last occurrence of an allele in a
record sequence, in processing order. -/
def lastFor (recs : List KirLigandInfo) (a : ClassI) : Option KirLigandInfo :=
  recs.reverse.find? (fun i => decide (i.allele = a))

/-- Specification helper: the token table of `LigandMotif::from_str`,
canonical tokens and legacy zero-padded synonyms. -/
def motifTokenTable : List (Str × LigandMotif) :=
  [("A11".toList, .A11), ("A3".toList, .A3), ("A03".toList, .A3),
   ("Bw4-80T".toList, .Bw4_80T), ("Bw4-80I".toList, .Bw4_80I),
   ("Bw6".toList, .Bw6), ("C1".toList, .C1), ("C01".toList, .C1),
   ("C2".toList, .C2), ("C02".toList, .C2),
   ("Unclassified".toList, .Unclassified)]

deriving instance DecidableEq for Except

/-- C3: `AlleleFreq::from` is a total function: for every input string it
returns exactly one of Rare, Common, or Unknown and never fails; after
trimming, any input containing the substring "Common" (checked before the
exact-match case, case-sensitively) yields Common, input exactly equal to
"Rare" yields Rare, and everything else yields Unknown. -/
theorem alleleFreq_fromStr_spec (s : Str) :
    (AlleleFreq.fromStr s = .Rare ∨ AlleleFreq.fromStr s = .Common ∨
      AlleleFreq.fromStr s = .Unknown) ∧
    (strContains "Common".toList (rustTrim s) = true →
      AlleleFreq.fromStr s = .Common) ∧
    (rustTrim s = "Rare".toList → AlleleFreq.fromStr s = .Rare) ∧
    (strContains "Common".toList (rustTrim s) = false →
      rustTrim s ≠ "Rare".toList → AlleleFreq.fromStr s = .Unknown) := by
  refine ⟨?_, ?_, ?_, ?_⟩
  · unfold AlleleFreq.fromStr
    split
    · exact Or.inr (Or.inl rfl)
    split
    · exact Or.inl rfl
    · exact Or.inr (Or.inr rfl)
  · intro h
    unfold AlleleFreq.fromStr
    rw [if_pos h]
  · intro h
    unfold AlleleFreq.fromStr
    rw [h]
    decide
  · intro h1 h2
    have h1' : strContains ['C', 'o', 'm', 'm', 'o', 'n'] (rustTrim s) = false := h1
    unfold AlleleFreq.fromStr
    rw [if_neg (by simp [h1']), if_neg h2]

/-- Witness for C3: the spec theorem applied at "Common (some note)", "Rare",
"rare" and the empty string. -/
theorem alleleFreq_fromStr_witness :
    AlleleFreq.fromStr "Common (some note)".toList = .Common ∧
    AlleleFreq.fromStr "Rare".toList = .Rare ∧
    AlleleFreq.fromStr "rare".toList = .Unknown ∧
    AlleleFreq.fromStr [] = .Unknown :=
  ⟨(alleleFreq_fromStr_spec "Common (some note)".toList).2.1 (by decide),
   (alleleFreq_fromStr_spec "Rare".toList).2.2.1 (by decide),
   (alleleFreq_fromStr_spec "rare".toList).2.2.2 (by decide) (by decide),
   (alleleFreq_fromStr_spec []).2.2.2 (by decide) (by decide)⟩

/-- C4: `LigandMotif::from_str` removes all whitespace from the input and
exact-matches against the canonical token table (with legacy synonyms
A03→A3, C01→C1, C02→C2); every token of the table parses to its motif, and
every non-matching normalized text fails with `UnknownLigandMotif` carrying
the offending (normalized) text, never mapping it to Unclassified. -/
theorem ligandMotif_from_str_spec (s : Str) :
    (∀ tok m, (tok, m) ∈ motifTokenTable → stripWhitespace s = tok →
      LigandMotif.from_str s = .ok m) ∧
    (stripWhitespace s ∉ motifTokenTable.map Prod.fst →
      LigandMotif.from_str s =
        .error (.UnknownLigandMotif (stripWhitespace s))) := by
  constructor
  · intro tok m hmem heq
    unfold LigandMotif.from_str
    rw [heq]
    fin_cases hmem <;> rfl
  · intro h
    simp only [motifTokenTable, List.map_cons, List.map_nil, List.mem_cons,
      List.not_mem_nil, or_false] at h
    push_neg at h
    obtain ⟨h1, h2, h3, h4, h5, h6, h7, h8, h9, h10, h11⟩ := h
    unfold LigandMotif.from_str matchMotifToken
    rw [if_neg h1, if_neg h2, if_neg h3, if_neg h4, if_neg h5, if_neg h6,
      if_neg h7, if_neg h8, if_neg h9, if_neg h10, if_neg h11]

/-- Witness for C4: the spec theorem applied at a whitespace-surrounded
canonical token, a legacy synonym, and an unrecognized token. -/
theorem ligandMotif_from_str_witness :
    LigandMotif.from_str "  Bw4-80T  ".toList = .ok .Bw4_80T ∧
    LigandMotif.from_str "A03".toList = .ok .A3 ∧
    LigandMotif.from_str "garbage".toList =
      .error (.UnknownLigandMotif "garbage".toList) :=
  ⟨(ligandMotif_from_str_spec "  Bw4-80T  ".toList).1 "Bw4-80T".toList
      .Bw4_80T (by decide) (by decide),
   (ligandMotif_from_str_spec "A03".toList).1 "A03".toList .A3
      (by decide) (by decide),
   (ligandMotif_from_str_spec "garbage".toList).2 (by decide)⟩

/-- C10: motif display and parsing round-trip — for every LigandMotif value,
parsing the displayed string succeeds and returns the same value. -/
theorem ligandMotif_display_roundtrip :
    ∀ m : LigandMotif, LigandMotif.from_str (LigandMotif.display m) = .ok m := by
  intro m
  cases m <;> rfl

/-- C9: `From<Vec<&str>> for LigandInfo` is total only for vectors of length
at least 2: length exactly 2 sets the frequency to the literal "Unknown",
length 3 or more takes the third element as frequency and ignores the rest,
and length 0 or 1 hits an out-of-bounds index (a panic, modelled as none). -/
theorem ligandInfo_from_vec_spec (info : List Str) :
    (2 ≤ info.length → (LigandInfo.from_vec info).isSome = true) ∧
    (info.length = 2 →
      LigandInfo.from_vec info =
        some ⟨info.getD 0 [], info.getD 1 [], "Unknown".toList⟩) ∧
    (3 ≤ info.length →
      LigandInfo.from_vec info =
        some ⟨info.getD 0 [], info.getD 1 [], info.getD 2 []⟩) ∧
    (info.length ≤ 1 → LigandInfo.from_vec info = none) := by
  rcases info with _ | ⟨a, _ | ⟨b, _ | ⟨c, rest⟩⟩⟩
  · refine ⟨fun h => by simp at h, fun h => by simp at h,
      fun h => by simp at h, fun _ => rfl⟩
  · refine ⟨fun h => by simp at h, fun h => by simp at h,
      fun h => by simp at h, fun _ => rfl⟩
  · refine ⟨fun _ => rfl, fun _ => rfl, fun h => by simp at h, fun h => by simp at h⟩
  · have hne : ¬((a :: b :: c :: rest).length = 2) := by simp
    refine ⟨fun _ => ?_, fun h => absurd h hne, fun _ => ?_, fun h => by simp at h⟩
    · simp [LigandInfo.from_vec, hne]
    · simp [LigandInfo.from_vec, hne]

/-- Witness for C9: the spec theorem applied at vectors of length 2, 4 and 1. -/
theorem ligandInfo_from_vec_witness :
    LigandInfo.from_vec ["X".toList, "C1".toList] =
      some ⟨"X".toList, "C1".toList, "Unknown".toList⟩ ∧
    LigandInfo.from_vec ["X".toList, "C1".toList, "Rare".toList, "extra".toList] =
      some ⟨"X".toList, "C1".toList, "Rare".toList⟩ ∧
    LigandInfo.from_vec ["X".toList] = none :=
  ⟨(ligandInfo_from_vec_spec ["X".toList, "C1".toList]).2.1 (by decide),
   (ligandInfo_from_vec_spec
      ["X".toList, "C1".toList, "Rare".toList, "extra".toList]).2.2.1 (by decide),
   (ligandInfo_from_vec_spec ["X".toList]).2.2.2 (by decide)⟩

/-- Inversion of a successful row conversion. -/
lemma rowToRecord_some_inv (p : Str → Option ClassI) (row : Row)
    (rec : KirLigandInfo) (h : rowToRecord p row = some rec) :
    ∃ a m f allele motif, row = [a, m, f] ∧ p a = some allele ∧
      LigandMotif.from_str m = .ok motif ∧
      rec = ⟨allele, motif, AlleleFreq.fromStr f⟩ := by
  rcases row with _ | ⟨a, _ | ⟨m, _ | ⟨f, _ | ⟨x, xs⟩⟩⟩⟩
  · simp [rowToRecord] at h
  · simp [rowToRecord] at h
  · simp [rowToRecord] at h
  · rcases hp : p a with _ | allele
    · simp [rowToRecord, hp] at h
    · rcases hm : LigandMotif.from_str m with e | motif
      · simp [rowToRecord, hp, hm] at h
      · refine ⟨a, m, f, allele, motif, rfl, hp, hm, ?_⟩
        simp only [rowToRecord, hp, hm, Option.some.injEq] at h
        exact h.symm
  · simp [rowToRecord] at h

/-- A row that converts to a record steps the row loop by consing its record. -/
lemma rowsLoop_cons_ok (p : Str → Option ClassI) (r : Row) (rs : List Row)
    (rec : KirLigandInfo) (hr : rowToRecord p r = some rec) :
    rowsLoop p (r :: rs) = Except.map (fun l => rec :: l) (rowsLoop p rs) := by
  obtain ⟨a, m, f, allele, motif, hrow, hp, hm, hrec⟩ :=
    rowToRecord_some_inv p r rec hr
  subst hrow
  subst hrec
  cases hrs : rowsLoop p rs <;> simp [rowsLoop, hp, hm, hrs, Except.map]

/-- The row loop over a fully converting prefix followed by anything. -/
lemma rowsLoop_append (p : Str → Option ClassI) (pre rest : List Row)
    (recs : List KirLigandInfo) (h : rowsToRecords p pre = some recs) :
    rowsLoop p (pre ++ rest) =
      Except.map (fun l => recs ++ l) (rowsLoop p rest) := by
  induction pre generalizing recs with
  | nil =>
    simp only [rowsToRecords, Option.some.injEq] at h
    subst h
    cases hrs : rowsLoop p rest <;> simp [hrs, Except.map]
  | cons r rs ih =>
    simp only [rowsToRecords] at h
    rcases hr : rowToRecord p r with _ | rec <;> rw [hr] at h
    · simp at h
    · rcases hrs : rowsToRecords p rs with _ | recs' <;> rw [hrs] at h
      · simp at h
      · simp only [Option.some.injEq] at h
        subst h
        rw [List.cons_append, rowsLoop_cons_ok p r (rs ++ rest) rec hr,
          ih recs' hrs]
        cases hrest : rowsLoop p rest <;> simp [hrest, Except.map]

/-- A row with a fragment count other than 3 aborts the row loop with
`IncorrectNumberOfColumns` carrying the count and the concatenated text. -/
lemma rowsLoop_badrow (p : Str → Option ClassI) (r : Row) (rs : List Row)
    (hlen : r.length ≠ 3) :
    rowsLoop p (r :: rs) =
      .error (.IncorrectNumberOfColumns r.length r.flatten) := by
  rcases r with _ | ⟨a, _ | ⟨m, _ | ⟨f, _ | ⟨x, xs⟩⟩⟩⟩ <;>
    first
    | rfl
    | (exfalso; exact hlen rfl)

/-- If the row loop succeeds on a cons, it succeeds on the tail. -/
lemma rowsLoop_cons_ok_inv (p : Str → Option ClassI) (r : Row) (rs : List Row)
    (recs : List KirLigandInfo) (h : rowsLoop p (r :: rs) = .ok recs) :
    ∃ recs', rowsLoop p rs = .ok recs' := by
  rcases r with _ | ⟨a, _ | ⟨m, _ | ⟨f, _ | ⟨x, xs⟩⟩⟩⟩
  · simp [rowsLoop] at h
  · simp [rowsLoop] at h
  · simp [rowsLoop] at h
  · rcases hp : p a with _ | allele
    · simp [rowsLoop, hp] at h
    · rcases hm : LigandMotif.from_str m with e | motif
      · simp [rowsLoop, hp, hm] at h
      · rcases hrs : rowsLoop p rs with e | recs'
        · simp [rowsLoop, hp, hm, hrs] at h
        · exact ⟨recs', rfl⟩
  · simp [rowsLoop] at h

/-- Success of the row loop forces every processed row to have exactly 3
fragments. -/
lemma rowsLoop_ok_shape (p : Str → Option ClassI) (rows : List Row)
    (recs : List KirLigandInfo) (h : rowsLoop p rows = .ok recs) :
    ∀ r ∈ rows, r.length = 3 := by
  induction rows generalizing recs with
  | nil =>
    intro r hr
    cases hr
  | cons r rs ih =>
    intro r' hr'
    rcases List.mem_cons.mp hr' with rfl | hmem
    · by_contra hlen
      rw [rowsLoop_badrow p r' rs hlen] at h
      cases h
    · obtain ⟨recs', hrs⟩ := rowsLoop_cons_ok_inv p r rs recs h
      exact ih recs' hrs r' hmem

/-- A fully converting row list has as many records as rows. -/
lemma rowsToRecords_length (p : Str → Option ClassI) (rows : List Row)
    (recs : List KirLigandInfo) (h : rowsToRecords p rows = some recs) :
    recs.length = rows.length := by
  induction rows generalizing recs with
  | nil =>
    simp only [rowsToRecords, Option.some.injEq] at h
    subst h
    rfl
  | cons r rs ih =>
    simp only [rowsToRecords] at h
    rcases hr : rowToRecord p r with _ | rec <;> rw [hr] at h
    · simp at h
    · rcases hrs : rowsToRecords p rs with _ | recs' <;> rw [hrs] at h
      · simp at h
      · simp only [Option.some.injEq] at h
        subst h
        simp [ih recs' hrs]

/-- C2: `read_table` processes row nodes in document order after discarding
the first skipRows of them; if every remaining row fully converts it returns
one record per remaining row, in order; if any remaining row has a fragment
count other than 3 it returns an error and no record sequence; and when such
a row is reached (all rows before it converting), the error is
`IncorrectNumberOfColumns` carrying the actual fragment count and the
concatenation of the row's text fragments. -/
theorem read_table_spec (p : Str → Option ClassI) (html : Html) (skip : Nat) :
    (∀ recs, rowsToRecords p (html.drop skip) = some recs →
      read_table p html skip = .ok recs ∧
      recs.length = (html.drop skip).length) ∧
    (∀ row ∈ html.drop skip, row.length ≠ 3 →
      ∃ e, read_table p html skip = .error e) ∧
    (∀ pre row rest recs, html.drop skip = pre ++ row :: rest →
      rowsToRecords p pre = some recs → row.length ≠ 3 →
      read_table p html skip =
        .error (.IncorrectNumberOfColumns row.length row.flatten)) := by
  refine ⟨?_, ?_, ?_⟩
  · intro recs h
    have h2 := rowsLoop_append p (html.drop skip) [] recs h
    rw [List.append_nil] at h2
    constructor
    · unfold read_table
      rw [h2]
      simp [rowsLoop, Except.map]
    · exact rowsToRecords_length p (html.drop skip) recs h
  · intro row hmem hlen
    rcases hres : rowsLoop p (html.drop skip) with e | recs
    · exact ⟨e, hres⟩
    · exact absurd (rowsLoop_ok_shape p (html.drop skip) recs hres row hmem) hlen
  · intro pre row rest recs hsplit hpre hlen
    unfold read_table
    rw [hsplit, rowsLoop_append p pre (row :: rest) recs hpre,
      rowsLoop_badrow p row rest hlen]
    rfl

/-- Witness for C2: the spec theorem applied to a concrete document whose
first data row converts and whose second data row has only 2 fragments. -/
theorem read_table_witness :
    read_table (fun s => some s)
      [["Allele".toList, "Motif".toList, "Frequency".toList],
       ["C*01:02".toList, "C1".toList, "Common".toList],
       ["bad1".toList, "bad2".toList]] 1 =
      .error (.IncorrectNumberOfColumns 2 "bad1bad2".toList) :=
  (read_table_spec (fun s => some s)
      [["Allele".toList, "Motif".toList, "Frequency".toList],
       ["C*01:02".toList, "C1".toList, "Common".toList],
       ["bad1".toList, "bad2".toList]] 1).2.2
    [["C*01:02".toList, "C1".toList, "Common".toList]]
    ["bad1".toList, "bad2".toList] []
    [⟨"C*01:02".toList, .C1, .Common⟩] rfl (by decide) (by decide)

/-- C8: during extraction, a second-fragment motif-parse failure aborts with
`CouldNotReadClassI` carrying the offending fragment text — the same error
constructor used when the first (allele) fragment fails to parse. -/
theorem read_table_motif_error_shape (p : Str → Option ClassI) (html : Html)
    (skip : Nat) (pre rest : List Row) (recs : List KirLigandInfo)
    (a m f : Str)
    (hsplit : html.drop skip = pre ++ [a, m, f] :: rest)
    (hpre : rowsToRecords p pre = some recs) :
    (∀ allele e, p a = some allele → LigandMotif.from_str m = .error e →
      read_table p html skip = .error (.CouldNotReadClassI m)) ∧
    (p a = none → read_table p html skip = .error (.CouldNotReadClassI a)) := by
  constructor
  · intro allele e hp hm
    unfold read_table
    rw [hsplit, rowsLoop_append p pre ([a, m, f] :: rest) recs hpre]
    simp [rowsLoop, hp, hm, Except.map]
  · intro hp
    unfold read_table
    rw [hsplit, rowsLoop_append p pre ([a, m, f] :: rest) recs hpre]
    simp [rowsLoop, hp, Except.map]

/-- Witness for C8: the shape theorem applied to a concrete document with an
unparseable motif fragment, and to one whose allele fragment fails to parse;
both yield `CouldNotReadClassI` with the offending fragment. -/
theorem read_table_motif_error_witness :
    read_table (fun s => some s)
      [["Allele".toList, "Motif".toList, "Frequency".toList],
       ["C*01:02".toList, "C1".toList, "Common".toList],
       ["B*57:01".toList, "NotAMotif".toList, "Rare".toList]] 1 =
      .error (.CouldNotReadClassI "NotAMotif".toList) ∧
    read_table (fun _ => none)
      [["Allele".toList, "Motif".toList, "Frequency".toList],
       ["B*57:01".toList, "Bw6".toList, "Rare".toList]] 1 =
      .error (.CouldNotReadClassI "B*57:01".toList) :=
  ⟨(read_table_motif_error_shape (fun s => some s)
      [["Allele".toList, "Motif".toList, "Frequency".toList],
       ["C*01:02".toList, "C1".toList, "Common".toList],
       ["B*57:01".toList, "NotAMotif".toList, "Rare".toList]] 1
      [["C*01:02".toList, "C1".toList, "Common".toList]] []
      [⟨"C*01:02".toList, .C1, .Common⟩]
      "B*57:01".toList "NotAMotif".toList "Rare".toList rfl (by decide)).1
      "B*57:01".toList
      (.UnknownLigandMotif (stripWhitespace "NotAMotif".toList)) rfl (by decide),
   (read_table_motif_error_shape (fun _ => none)
      [["Allele".toList, "Motif".toList, "Frequency".toList],
       ["B*57:01".toList, "Bw6".toList, "Rare".toList]] 1
      [] [] [] "B*57:01".toList "Bw6".toList "Rare".toList rfl rfl).2 rfl⟩

lemma optOr_none_right {α : Type} (x : Option α) : optOr x none = x := by
  cases x <;> rfl

lemma find?_append_optOr {α : Type} (p : α → Bool) (l₁ l₂ : List α) :
    (l₁ ++ l₂).find? p = optOr (l₁.find? p) (l₂.find? p) := by
  induction l₁ with
  | nil => simp [optOr]
  | cons a l ih =>
    cases h : p a <;> simp [List.find?, h, ih, optOr]

lemma find?_filter_of_imp {α : Type} (p q : α → Bool) (l : List α)
    (hpq : ∀ x, p x = true → q x = true) :
    (l.filter q).find? p = l.find? p := by
  induction l with
  | nil => rfl
  | cons a l ih =>
    cases hq : q a
    · have hp : p a = false := by
        cases hp' : p a
        · rfl
        · rw [hpq a hp'] at hq
          cases hq
      rw [List.filter_cons_of_neg (by simp [hq])]
      rw [ih, List.find?]
      rw [hp]
    · rw [List.filter_cons_of_pos (by simp [hq])]
      cases hp : p a <;> simp [List.find?, hp, ih]

/-- Cache lookup after a cache insert: the inserted key now maps to the
inserted value, all other keys are unchanged. -/
lemma cacheLookup_cacheInsert (k : ClassI) (v : KirLigandInfo) (a : ClassI)
    (c : List (ClassI × KirLigandInfo)) :
    cacheLookup (cacheInsert k v c) a =
      if k = a then some v else cacheLookup c a := by
  unfold cacheLookup cacheInsert
  by_cases h : k = a
  · subst h
    simp [List.find?]
  · rw [if_neg h]
    rw [List.find?]
    have hka : (decide ((k, v).1 = a)) = false := by
      simp [h]
    rw [hka]
    rw [find?_filter_of_imp]
    intro x hx
    simp only [decide_eq_true_eq] at hx ⊢
    rw [hx]
    exact fun hak => h hak.symm

lemma lastFor_cons (r : KirLigandInfo) (rs : List KirLigandInfo) (a : ClassI) :
    lastFor (r :: rs) a =
      optOr (lastFor rs a) (if r.allele = a then some r else none) := by
  unfold lastFor
  rw [show (r :: rs).reverse = rs.reverse ++ [r] by simp]
  rw [find?_append_optOr]
  congr 1
  rw [List.find?]
  by_cases h : r.allele = a <;> simp [h]

lemma lastFor_append (recs₁ recs₂ : List KirLigandInfo) (a : ClassI) :
    lastFor (recs₁ ++ recs₂) a = optOr (lastFor recs₂ a) (lastFor recs₁ a) := by
  unfold lastFor
  rw [List.reverse_append, find?_append_optOr]

/-- Cache lookup after inserting a record list: the last inserted record for
the allele wins, older bindings survive only for untouched alleles. -/
lemma cacheLookup_insertAll (m : KirLigandMap) (recs : List KirLigandInfo)
    (a : ClassI) :
    cacheLookup (insertAll m recs).cache a =
      optOr (lastFor recs a) (cacheLookup m.cache a) := by
  induction recs generalizing m with
  | nil => simp [insertAll, lastFor, optOr]
  | cons r rs ih =>
    rw [show insertAll m (r :: rs) = insertAll (mapInsert m r) rs from rfl, ih]
    rw [show (mapInsert m r).cache = cacheInsert r.allele r m.cache from rfl]
    rw [cacheLookup_cacheInsert, lastFor_cons]
    cases hl : lastFor rs a <;> by_cases h : r.allele = a <;> simp [optOr, h]

lemma mem_setInsert (a b : ClassI) (s : List ClassI) :
    a ∈ setInsert b s ↔ a = b ∨ a ∈ s := by
  unfold setInsert
  split
  · rename_i hb
    constructor
    · exact Or.inr
    · rintro (rfl | h)
      · exact hb
      · exact h
  · simp

/-- Allele-set membership after inserting a record list. -/
lemma mem_alleles_insertAll (m : KirLigandMap) (recs : List KirLigandInfo)
    (a : ClassI) :
    a ∈ (insertAll m recs).alleles ↔
      (∃ i ∈ recs, i.allele = a) ∨ a ∈ m.alleles := by
  induction recs generalizing m with
  | nil => simp [insertAll]
  | cons r rs ih =>
    rw [show insertAll m (r :: rs) = insertAll (mapInsert m r) rs from rfl, ih]
    rw [show (mapInsert m r).alleles = setInsert r.allele m.alleles from rfl]
    rw [mem_setInsert]
    constructor
    · rintro (⟨i, hi, rfl⟩ | rfl | h)
      · exact Or.inl ⟨i, List.mem_cons_of_mem r hi, rfl⟩
      · exact Or.inl ⟨r, List.mem_cons_self r rs, rfl⟩
      · exact Or.inr h
    · rintro (⟨i, hi, rfl⟩ | h)
      · rcases List.mem_cons.mp hi with rfl | hmem
        · exact Or.inr (Or.inl rfl)
        · exact Or.inl ⟨i, hmem, rfl⟩
      · exact Or.inr (Or.inr h)

/-- The construction invariant of the map: the allele set and the cache key
set coincide, and each key has exactly one cache entry. -/
def MapInv (m : KirLigandMap) : Prop :=
  (∀ a, a ∈ m.alleles ↔ (cacheLookup m.cache a).isSome = true) ∧
    (m.cache.map Prod.fst).Nodup

lemma mapInv_mapInsert (m : KirLigandMap) (r : KirLigandInfo)
    (h : MapInv m) : MapInv (mapInsert m r) := by
  obtain ⟨hmem, hnodup⟩ := h
  constructor
  · intro a
    rw [show (mapInsert m r).alleles = setInsert r.allele m.alleles from rfl]
    rw [show (mapInsert m r).cache = cacheInsert r.allele r m.cache from rfl]
    rw [mem_setInsert, cacheLookup_cacheInsert]
    by_cases hra : r.allele = a
    · simp [hra]
    · rw [if_neg hra]
      rw [hmem a]
      constructor
      · rintro (rfl | h2)
        · exact absurd rfl hra
        · exact h2
      · exact Or.inr
  · rw [show (mapInsert m r).cache = cacheInsert r.allele r m.cache from rfl]
    unfold cacheInsert
    rw [List.map_cons]
    refine List.Nodup.cons ?_ ?_
    · intro hmem2
      obtain ⟨p, hp, hp1⟩ := List.mem_map.mp hmem2
      have := List.of_mem_filter hp
      simp only [decide_eq_true_eq] at this
      exact this hp1
    · exact List.Nodup.sublist
        (List.Sublist.map Prod.fst (List.filter_sublist m.cache)) hnodup

lemma mapInv_insertAll (m : KirLigandMap) (recs : List KirLigandInfo)
    (h : MapInv m) : MapInv (insertAll m recs) := by
  induction recs generalizing m with
  | nil => exact h
  | cons r rs ih =>
    exact ih (mapInsert m r) (mapInv_mapInsert m r h)

/-- Every map state reachable by the build loop from an invariant-satisfying
state satisfies the invariant, whether or not a locus fails. -/
lemma mapInv_buildLoop (p : Str → Option ClassI)
    (fetch : Str → Except HtmlParseError Html) (loci : List Str)
    (st : KirLigandMap) (h : MapInv st) :
    MapInv (buildLoop p fetch st loci).1 := by
  induction loci generalizing st with
  | nil => exact h
  | cons l ls ih =>
    rcases hf : fetch l with e | doc
    · simpa [buildLoop, hf] using h
    · rcases hr : read_table p doc SKIP_ROWS with e | infos
      · simpa [buildLoop, hf, hr] using h
      · simpa [buildLoop, hf, hr] using
          ih (insertAll st infos) (mapInv_insertAll st infos h)

/-- When every locus fetches and extracts successfully, the build loop ends
in the map collecting all loci's records in order, with an ok collect. -/
lemma buildLoop_success (p : Str → Option ClassI)
    (fetch : Str → Except HtmlParseError Html) (loci : List Str)
    (recsOf : Str → List KirLigandInfo) (st : KirLigandMap)
    (h : ∀ l ∈ loci, ∃ doc, fetch l = .ok doc ∧
      read_table p doc SKIP_ROWS = .ok (recsOf l)) :
    buildLoop p fetch st loci =
      (insertAll st ((loci.map recsOf).flatten), .ok ()) := by
  induction loci generalizing st with
  | nil => simp [buildLoop, insertAll]
  | cons l ls ih =>
    obtain ⟨doc, hf, hr⟩ := h l (List.mem_cons_self l ls)
    have hrest := ih (insertAll st (recsOf l))
      (fun l' hl' => h l' (List.mem_cons_of_mem l hl'))
    simp only [buildLoop, hf, hr, hrest, List.map_cons, List.flatten_cons]
    rw [show insertAll (insertAll st (recsOf l)) ((ls.map recsOf).flatten) =
      insertAll st (recsOf l ++ (ls.map recsOf).flatten) from
        (List.foldl_append ..).symm]

/-- A successful `new` yields exactly the build-loop's final map state. -/
lemma new_ok_state (p : Str → Option ClassI)
    (fetch : Str → Except HtmlParseError Html) (loci : List Str)
    (m : KirLigandMap) (hnew : KirLigandMap.new p fetch loci = .ok m) :
    m = (buildLoop p fetch ⟨[], []⟩ loci).1 := by
  unfold KirLigandMap.new at hnew
  injection hnew with h
  exact h.symm

/-- The fetch behavior of the C1 scenario: locus "A" yields a table with one
data row, every other locus fails at transport. -/
def c1Fetch : Str → Except HtmlParseError Html := fun locus =>
  if locus = "A".toList then
    .ok [["Allele".toList, "Motif".toList, "Frequency".toList],
         ["A*01:01".toList, "A3".toList, "Common".toList]]
  else .error .CouldNotConnect

/-- C1 (refuted by the code — the error of the fail-fast collect is bound to
`_` and discarded, kir_ligand.rs line 118): fetching locus "B" fails, yet
`KirLigandMap::new` over ["A", "B"] returns Ok with the cache built from
locus "A" alone, so a partially built cache IS returned to the caller,
against the claim that building returns an error and never exposes it. -/
theorem kirLigandMap_new_swallows_failure :
    c1Fetch "B".toList = .error .CouldNotConnect ∧
    KirLigandMap.new (fun s => some s) c1Fetch ["A".toList, "B".toList] =
      .ok ⟨["A*01:01".toList],
        [("A*01:01".toList,
          (⟨"A*01:01".toList, .A3, .Common⟩ : KirLigandInfo))]⟩ := by
  constructor
  · decide
  · decide

/-- C5: with every locus fetching and extracting successfully, the
constructed cache maps each allele to the record of its last occurrence in
processing order (last-write-wins, no merging of motif or frequency), and
the allele set is the union of the alleles produced by all loci. -/
theorem kirLigandMap_new_last_write_wins (p : Str → Option ClassI)
    (fetch : Str → Except HtmlParseError Html) (loci : List Str)
    (recsOf : Str → List KirLigandInfo) (m : KirLigandMap)
    (hsucc : ∀ l ∈ loci, ∃ doc, fetch l = .ok doc ∧
      read_table p doc SKIP_ROWS = .ok (recsOf l))
    (hnew : KirLigandMap.new p fetch loci = .ok m) :
    (∀ a, cacheLookup m.cache a = lastFor ((loci.map recsOf).flatten) a) ∧
    (∀ a, a ∈ m.alleles ↔ ∃ i ∈ (loci.map recsOf).flatten, i.allele = a) := by
  have hm : m = insertAll ⟨[], []⟩ ((loci.map recsOf).flatten) := by
    rw [new_ok_state p fetch loci m hnew,
      buildLoop_success p fetch loci recsOf ⟨[], []⟩ hsucc]
  subst hm
  constructor
  · intro a
    rw [cacheLookup_insertAll]
    rw [show cacheLookup (⟨[], []⟩ : KirLigandMap).cache a = none from rfl]
    rw [optOr_none_right]
  · intro a
    rw [mem_alleles_insertAll]
    have : a ∉ (⟨[], []⟩ : KirLigandMap).alleles := List.not_mem_nil a
    constructor
    · rintro (h | h)
      · exact h
      · exact absurd h this
    · exact Or.inl

/-- C6: every constructed KirLigandMap satisfies the invariant that its
allele set and the key set of its cache coincide, and each key has exactly
one cache entry (the key list is duplicate-free). -/
theorem kirLigandMap_new_invariant (p : Str → Option ClassI)
    (fetch : Str → Except HtmlParseError Html) (loci : List Str)
    (m : KirLigandMap) (hnew : KirLigandMap.new p fetch loci = .ok m) :
    (∀ a, a ∈ m.alleles ↔ (cacheLookup m.cache a).isSome = true) ∧
    (m.cache.map Prod.fst).Nodup := by
  rw [new_ok_state p fetch loci m hnew]
  exact mapInv_buildLoop p fetch loci ⟨[], []⟩
    ⟨fun a => by simp [cacheLookup], by simp⟩

/-- C7: lookup on a constructed cache returns zero or one record and never
an error: a member of the allele set yields its single cached record, and an
allele present in no locus result yields the empty result. -/
theorem kirLigandMap_get_allele_info_spec (p : Str → Option ClassI)
    (fetch : Str → Except HtmlParseError Html) (loci : List Str)
    (recsOf : Str → List KirLigandInfo) (m : KirLigandMap) (a : ClassI)
    (hsucc : ∀ l ∈ loci, ∃ doc, fetch l = .ok doc ∧
      read_table p doc SKIP_ROWS = .ok (recsOf l))
    (hnew : KirLigandMap.new p fetch loci = .ok m) :
    (KirLigandMap.get_allele_info m a).length ≤ 1 ∧
    (a ∈ m.alleles → ∃ i, cacheLookup m.cache a = some i ∧
      KirLigandMap.get_allele_info m a = [i]) ∧
    ((∀ i ∈ (loci.map recsOf).flatten, i.allele ≠ a) →
      KirLigandMap.get_allele_info m a = []) := by
  have hinv : MapInv m := by
    rw [new_ok_state p fetch loci m hnew]
    exact mapInv_buildLoop p fetch loci ⟨[], []⟩
      ⟨fun a2 => by simp [cacheLookup], by simp⟩
  refine ⟨?_, ?_, ?_⟩
  · unfold KirLigandMap.get_allele_info
    split
    · cases cacheLookup m.cache a <;> simp
    · simp
  · intro hmem
    have hsome := (hinv.1 a).mp hmem
    rcases hl : cacheLookup m.cache a with _ | i
    · rw [hl] at hsome
      cases hsome
    · refine ⟨i, rfl, ?_⟩
      unfold KirLigandMap.get_allele_info
      rw [if_pos hmem, hl]
  · intro habs
    have hm : m = insertAll ⟨[], []⟩ ((loci.map recsOf).flatten) := by
      rw [new_ok_state p fetch loci m hnew,
        buildLoop_success p fetch loci recsOf ⟨[], []⟩ hsucc]
    have hnot : a ∉ m.alleles := by
      rw [hm, mem_alleles_insertAll]
      rintro (⟨i, hi, hia⟩ | h)
      · exact habs i hi hia
      · exact List.not_mem_nil a h
    unfold KirLigandMap.get_allele_info
    rw [if_neg hnot]

/-- The fetch behavior shared by the C5/C6/C7 witnesses: loci "A" and "B"
both succeed, and the allele X*01:01 appears in both with different motifs
and frequencies. -/
def wFetch : Str → Except HtmlParseError Html := fun locus =>
  if locus = "A".toList then
    .ok [["Allele".toList, "Motif".toList, "Frequency".toList],
         ["X*01:01".toList, "C1".toList, "Rare".toList]]
  else if locus = "B".toList then
    .ok [["Allele".toList, "Motif".toList, "Frequency".toList],
         ["X*01:01".toList, "C2".toList, "Common".toList],
         ["Y*02:02".toList, "Bw6".toList, "Rare".toList]]
  else .error .CouldNotConnect

/-- The per-locus record lists extracted under `wFetch`. -/
def wRecsOf : Str → List KirLigandInfo := fun locus =>
  if locus = "A".toList then [⟨"X*01:01".toList, .C1, .Rare⟩]
  else [⟨"X*01:01".toList, .C2, .Common⟩, ⟨"Y*02:02".toList, .Bw6, .Rare⟩]

/-- The map built over loci ["A", "B"] under `wFetch`. -/
def wMap : KirLigandMap :=
  (buildLoop (fun s => some s) wFetch ⟨[], []⟩ ["A".toList, "B".toList]).1

lemma wFetch_success : ∀ l ∈ ["A".toList, "B".toList], ∃ doc,
    wFetch l = .ok doc ∧
    read_table (fun s => some s) doc SKIP_ROWS = .ok (wRecsOf l) := by
  intro l hl
  rcases List.mem_cons.mp hl with rfl | hl2
  · exact ⟨_, rfl, by decide⟩
  · rcases List.mem_cons.mp hl2 with rfl | hl3
    · exact ⟨_, rfl, by decide⟩
    · cases hl3

/-- Witness for C5: under `wFetch`, allele X*01:01 (produced by both loci)
maps to the record from locus "B", the last locus processed, and both loci's
alleles are in the set. -/
theorem kirLigandMap_new_last_write_wins_witness :
    cacheLookup wMap.cache "X*01:01".toList =
      some ⟨"X*01:01".toList, .C2, .Common⟩ ∧
    "Y*02:02".toList ∈ wMap.alleles ∧ "X*01:01".toList ∈ wMap.alleles := by
  have h := kirLigandMap_new_last_write_wins (fun s => some s) wFetch
    ["A".toList, "B".toList] wRecsOf wMap wFetch_success rfl
  refine ⟨(h.1 "X*01:01".toList).trans (by decide), ?_, ?_⟩
  · exact (h.2 "Y*02:02".toList).mpr
      ⟨⟨"Y*02:02".toList, .Bw6, .Rare⟩, by decide, rfl⟩
  · exact (h.2 "X*01:01".toList).mpr
      ⟨⟨"X*01:01".toList, .C2, .Common⟩, by decide, rfl⟩

/-- Witness for C6: the invariant theorem applied to the concrete map built
under `wFetch`. -/
theorem kirLigandMap_new_invariant_witness :
    ("X*01:01".toList ∈ wMap.alleles ↔
      (cacheLookup wMap.cache "X*01:01".toList).isSome = true) ∧
    (wMap.cache.map Prod.fst).Nodup := by
  have h := kirLigandMap_new_invariant (fun s => some s) wFetch
    ["A".toList, "B".toList] wMap rfl
  exact ⟨h.1 "X*01:01".toList, h.2⟩

/-- Witness for C7: on the concrete map built under `wFetch`, lookup of a
present allele returns its single record and lookup of an allele present in
no locus result returns the empty result. -/
theorem kirLigandMap_get_allele_info_witness :
    KirLigandMap.get_allele_info wMap "X*01:01".toList =
      [⟨"X*01:01".toList, .C2, .Common⟩] ∧
    KirLigandMap.get_allele_info wMap "Z*09:99".toList = [] := by
  constructor
  · have h := kirLigandMap_get_allele_info_spec (fun s => some s) wFetch
      ["A".toList, "B".toList] wRecsOf wMap "X*01:01".toList wFetch_success rfl
    obtain ⟨i, hi, hgi⟩ := h.2.1 (by decide)
    have hieq : some (⟨"X*01:01".toList, .C2, .Common⟩ : KirLigandInfo) =
        some i := by
      rw [← hi]
      decide
    cases hieq
    exact hgi
  · have h := kirLigandMap_get_allele_info_spec (fun s => some s) wFetch
      ["A".toList, "B".toList] wRecsOf wMap "Z*09:99".toList wFetch_success rfl
    exact h.2.2 (by decide)

end FsTool
